import Mathlib

/-!
Verification of the versioned key-value store (vd-ct).

The development shallowly embeds the storage engine of the repository:
the SQLite-backed `Database` (src/database.js) and its serverless twin
(database-serverless.js), the MongoDB-backed `MongoDatabase`
(src/database-mongodb.js), the in-memory `Map` store of the serverless
API entry point (api/index.js), the Joi validators (src/validators.js),
and the HTTP handlers of server.js, server-mongodb.js and api/index.js.

JSON values are modelled by the inductive `JsonValue`; JSON numbers are
restricted to integers (the repository only ever stores and queries
seconds-resolution integer timestamps, and every concrete input used in
the theorems below is integer-valued).  `stringify` follows
JSON.stringify and `jsonParse` follows JSON.parse on this fragment;
number literals with fractional or exponent parts are outside the model.
-/

/-- A JSON value: null, boolean, (integer) number, string, array, object. -/
inductive JsonValue where
  | null : JsonValue
  | bool : Bool → JsonValue
  | num : Int → JsonValue
  | str : String → JsonValue
  | arr : List JsonValue → JsonValue
  | obj : List (String × JsonValue) → JsonValue
deriving Repr

mutual

/-- Decidable equality on JSON values. -/
def decEqJsonValue : (a b : JsonValue) → Decidable (a = b)
  | .null, .null => isTrue rfl
  | .bool x, .bool y =>
      match decEq x y with
      | isTrue h => isTrue (by rw [h])
      | isFalse h => isFalse (by intro hh; injection hh with e; exact h e)
  | .num x, .num y =>
      match decEq x y with
      | isTrue h => isTrue (by rw [h])
      | isFalse h => isFalse (by intro hh; injection hh with e; exact h e)
  | .str x, .str y =>
      match decEq x y with
      | isTrue h => isTrue (by rw [h])
      | isFalse h => isFalse (by intro hh; injection hh with e; exact h e)
  | .arr xs, .arr ys =>
      match decEqJsonList xs ys with
      | isTrue h => isTrue (by rw [h])
      | isFalse h => isFalse (by intro hh; injection hh with e; exact h e)
  | .obj fs, .obj gs =>
      match decEqJsonFields fs gs with
      | isTrue h => isTrue (by rw [h])
      | isFalse h => isFalse (by intro hh; injection hh with e; exact h e)
  | .null, .bool _ => isFalse (fun h => nomatch h)
  | .null, .num _ => isFalse (fun h => nomatch h)
  | .null, .str _ => isFalse (fun h => nomatch h)
  | .null, .arr _ => isFalse (fun h => nomatch h)
  | .null, .obj _ => isFalse (fun h => nomatch h)
  | .bool _, .null => isFalse (fun h => nomatch h)
  | .bool _, .num _ => isFalse (fun h => nomatch h)
  | .bool _, .str _ => isFalse (fun h => nomatch h)
  | .bool _, .arr _ => isFalse (fun h => nomatch h)
  | .bool _, .obj _ => isFalse (fun h => nomatch h)
  | .num _, .null => isFalse (fun h => nomatch h)
  | .num _, .bool _ => isFalse (fun h => nomatch h)
  | .num _, .str _ => isFalse (fun h => nomatch h)
  | .num _, .arr _ => isFalse (fun h => nomatch h)
  | .num _, .obj _ => isFalse (fun h => nomatch h)
  | .str _, .null => isFalse (fun h => nomatch h)
  | .str _, .bool _ => isFalse (fun h => nomatch h)
  | .str _, .num _ => isFalse (fun h => nomatch h)
  | .str _, .arr _ => isFalse (fun h => nomatch h)
  | .str _, .obj _ => isFalse (fun h => nomatch h)
  | .arr _, .null => isFalse (fun h => nomatch h)
  | .arr _, .bool _ => isFalse (fun h => nomatch h)
  | .arr _, .num _ => isFalse (fun h => nomatch h)
  | .arr _, .str _ => isFalse (fun h => nomatch h)
  | .arr _, .obj _ => isFalse (fun h => nomatch h)
  | .obj _, .null => isFalse (fun h => nomatch h)
  | .obj _, .bool _ => isFalse (fun h => nomatch h)
  | .obj _, .num _ => isFalse (fun h => nomatch h)
  | .obj _, .str _ => isFalse (fun h => nomatch h)
  | .obj _, .arr _ => isFalse (fun h => nomatch h)

/-- Decidable equality on lists of JSON values. -/
def decEqJsonList : (a b : List JsonValue) → Decidable (a = b)
  | [], [] => isTrue rfl
  | [], _ :: _ => isFalse (fun h => nomatch h)
  | _ :: _, [] => isFalse (fun h => nomatch h)
  | x :: xs, y :: ys =>
      match decEqJsonValue x y with
      | isFalse h1 => isFalse (by intro h; injection h with e1 e2; exact h1 e1)
      | isTrue h1 =>
          match decEqJsonList xs ys with
          | isTrue h2 => isTrue (by rw [h1, h2])
          | isFalse h2 => isFalse (by intro h; injection h with e1 e2; exact h2 e2)

/-- Decidable equality on lists of JSON object members. -/
def decEqJsonFields : (a b : List (String × JsonValue)) → Decidable (a = b)
  | [], [] => isTrue rfl
  | [], _ :: _ => isFalse (fun h => nomatch h)
  | _ :: _, [] => isFalse (fun h => nomatch h)
  | (k1, v1) :: xs, (k2, v2) :: ys =>
      match decEq k1 k2 with
      | isFalse hk => isFalse (by
          intro h; injection h with e1 e2
          injection e1 with ek ev; exact hk ek)
      | isTrue hk =>
          match decEqJsonValue v1 v2 with
          | isFalse hv => isFalse (by
              intro h; injection h with e1 e2
              injection e1 with ek ev; exact hv ev)
          | isTrue hv =>
              match decEqJsonFields xs ys with
              | isTrue ht => isTrue (by rw [hk, hv, ht])
              | isFalse ht => isFalse (by intro h; injection h with e1 e2; exact ht e2)

end

instance : DecidableEq JsonValue := decEqJsonValue

/-- JSON string escaping of one character, as JSON.stringify performs it. -/
def escapeOne (c : Char) : List Char :=
  if c = '"' then ['\\', '"']
  else if c = '\\' then ['\\', '\\']
  else if c = '\n' then ['\\', 'n']
  else if c = '\r' then ['\\', 'r']
  else if c = '\t' then ['\\', 't']
  else if c = Char.ofNat 8 then ['\\', 'b']
  else if c = Char.ofNat 12 then ['\\', 'f']
  else if c.toNat < 32 then
    let hx : Nat → Char := fun n => if n < 10 then Char.ofNat (48 + n) else Char.ofNat (87 + n)
    ['\\', 'u', '0', '0', hx (c.toNat / 16), hx (c.toNat % 16)]
  else [c]

/-- Quote and escape a string as a JSON string literal. -/
def quoteString (s : String) : String :=
  String.mk ('"' :: s.data.foldr (fun c acc => escapeOne c ++ acc) ['"'])

mutual

/-- JSON.stringify restricted to the integer-numeric fragment. -/
def stringify : JsonValue → String
  | .null => "null"
  | .bool true => "true"
  | .bool false => "false"
  | .num n => toString n
  | .str s => quoteString s
  | .arr xs => "[" ++ stringifyList xs ++ "]"
  | .obj fs => "\x7b" ++ stringifyFields fs ++ "\x7d"

/-- Comma-separated serialization of array elements. -/
def stringifyList : List JsonValue → String
  | [] => ""
  | [x] => stringify x
  | x :: y :: rest => stringify x ++ "," ++ stringifyList (y :: rest)

/-- Comma-separated serialization of object members. -/
def stringifyFields : List (String × JsonValue) → String
  | [] => ""
  | [(k, v)] => quoteString k ++ ":" ++ stringify v
  | (k, v) :: y :: rest => quoteString k ++ ":" ++ stringify v ++ "," ++ stringifyFields (y :: rest)

end

/-- Skip JSON insignificant whitespace. -/
def skipWs : List Char → List Char
  | c :: cs => if c = ' ' ∨ c = '\t' ∨ c = '\n' ∨ c = '\r' then skipWs cs else c :: cs
  | [] => []

/-- Value of a hexadecimal digit, if the character is one. -/
def hexVal (c : Char) : Option Nat :=
  if c.isDigit then some (c.toNat - 48)
  else if 'a' ≤ c ∧ c ≤ 'f' then some (c.toNat - 87)
  else if 'A' ≤ c ∧ c ≤ 'F' then some (c.toNat - 55)
  else none

/-- Parse the body of a JSON string literal (after the opening quote),
returning the decoded characters and the remainder after the closing quote. -/
def parseStringBody : List Char → Option (List Char × List Char)
  | '"' :: rest => some ([], rest)
  | '\\' :: '"' :: rest => (parseStringBody rest).map (fun p => ('"' :: p.1, p.2))
  | '\\' :: '\\' :: rest => (parseStringBody rest).map (fun p => ('\\' :: p.1, p.2))
  | '\\' :: '/' :: rest => (parseStringBody rest).map (fun p => ('/' :: p.1, p.2))
  | '\\' :: 'n' :: rest => (parseStringBody rest).map (fun p => ('\n' :: p.1, p.2))
  | '\\' :: 't' :: rest => (parseStringBody rest).map (fun p => ('\t' :: p.1, p.2))
  | '\\' :: 'r' :: rest => (parseStringBody rest).map (fun p => ('\r' :: p.1, p.2))
  | '\\' :: 'b' :: rest => (parseStringBody rest).map (fun p => (Char.ofNat 8 :: p.1, p.2))
  | '\\' :: 'f' :: rest => (parseStringBody rest).map (fun p => (Char.ofNat 12 :: p.1, p.2))
  | '\\' :: 'u' :: a :: b :: c :: d :: rest =>
      match hexVal a, hexVal b, hexVal c, hexVal d with
      | some ha, some hb, some hc, some hd =>
          (parseStringBody rest).map
            (fun p => (Char.ofNat (((ha * 16 + hb) * 16 + hc) * 16 + hd) :: p.1, p.2))
      | _, _, _, _ => none
  | '\\' :: _ => none
  | c :: rest =>
      if c.toNat < 32 then none
      else (parseStringBody rest).map (fun p => (c :: p.1, p.2))
  | [] => none

/-- Take the maximal leading run of decimal digits. -/
def takeDigits : List Char → List Char × List Char
  | c :: cs =>
      if c.isDigit then
        let p := takeDigits cs
        (c :: p.1, p.2)
      else ([], c :: cs)
  | [] => ([], [])

/-- Accumulate decimal digits into a natural number. -/
def digitsToNat (acc : Nat) : List Char → Nat
  | [] => acc
  | c :: cs => digitsToNat (acc * 10 + (c.toNat - 48)) cs

/-- Parse a JSON integer literal (sign and digits, no leading zeros, no
fraction or exponent, which are outside the model). -/
def parseNumFrom (cs : List Char) : Option (Int × List Char) :=
  let sign : Bool × List Char :=
    match cs with
    | '-' :: t => (true, t)
    | _ => (false, cs)
  match takeDigits sign.2 with
  | ([], _) => none
  | (ds, rest) =>
      if 1 < ds.length ∧ ds.head? = some '0' then none
      else
        match rest with
        | '.' :: _ => none
        | 'e' :: _ => none
        | 'E' :: _ => none
        | _ =>
            let n : Int := Int.ofNat (digitsToNat 0 ds)
            some (if sign.1 then -n else n, rest)

mutual

/-- Parse one JSON value (fuel-indexed recursive descent, following the
grammar accepted by JSON.parse on the integer-numeric fragment). -/
def parseValue : Nat → List Char → Option (JsonValue × List Char)
  | 0, _ => none
  | fuel + 1, cs =>
      match skipWs cs with
      | 'n' :: 'u' :: 'l' :: 'l' :: rest => some (.null, rest)
      | 't' :: 'r' :: 'u' :: 'e' :: rest => some (.bool true, rest)
      | 'f' :: 'a' :: 'l' :: 's' :: 'e' :: rest => some (.bool false, rest)
      | '"' :: rest => (parseStringBody rest).map (fun p => (.str (String.mk p.1), p.2))
      | '[' :: rest =>
          match skipWs rest with
          | ']' :: r2 => some (.arr [], r2)
          | r1 =>
              (parseElems fuel r1).map (fun p => (.arr p.1, p.2))
      | '\x7b' :: rest =>
          match skipWs rest with
          | '\x7d' :: r2 => some (.obj [], r2)
          | r1 =>
              (parseMembers fuel r1).map (fun p => (.obj p.1, p.2))
      | other => (parseNumFrom other).map (fun p => (.num p.1, p.2))

/-- Parse one or more comma-separated array elements up to the closing bracket. -/
def parseElems : Nat → List Char → Option (List JsonValue × List Char)
  | 0, _ => none
  | fuel + 1, cs =>
      match parseValue fuel cs with
      | none => none
      | some (v, rest) =>
          match skipWs rest with
          | ',' :: r2 => (parseElems fuel r2).map (fun p => (v :: p.1, p.2))
          | ']' :: r2 => some ([v], r2)
          | _ => none

/-- Parse one or more comma-separated object members up to the closing brace. -/
def parseMembers : Nat → List Char → Option (List (String × JsonValue) × List Char)
  | 0, _ => none
  | fuel + 1, cs =>
      match skipWs cs with
      | '"' :: rest =>
          match parseStringBody rest with
          | none => none
          | some (kcs, r1) =>
              match skipWs r1 with
              | ':' :: r2 =>
                  match parseValue fuel r2 with
                  | none => none
                  | some (v, r3) =>
                      match skipWs r3 with
                      | ',' :: r4 =>
                          (parseMembers fuel r4).map
                            (fun p => ((String.mk kcs, v) :: p.1, p.2))
                      | '\x7d' :: r4 => some ([(String.mk kcs, v)], r4)
                      | _ => none
              | _ => none
      | _ => none

end

/-- JSON.parse on the modelled fragment: parse one value, then require
only trailing whitespace. -/
def jsonParse (s : String) : Option JsonValue :=
  match parseValue (2 * s.length + 2) s.data with
  | some (v, rest) => if skipWs rest = [] then some v else none
  | none => none

/-! ## Storage model: SQLite-backed `Database` (src/database.js) and its
serverless twin (database-serverless.js).

The `kv_store` table is modelled as a list of rows in rowid order; the
`UNIQUE(key, timestamp)` constraint together with `INSERT OR REPLACE`
makes a write delete any existing row with the same `(key, timestamp)`
and append the fresh row. -/

/-- One persisted row of the `kv_store` table: `value` is the stored TEXT. -/
structure Row where
  key : String
  value : String
  timestamp : Nat
deriving Repr, DecidableEq

/-- Serialization performed by `storeValue`: a string value is stored
verbatim, any other value as its JSON.stringify form. -/
def serializeValue : JsonValue → String
  | .str s => s
  | v => stringify v

/-- INSERT OR REPLACE INTO kv_store: drop any row with the same
`(key, timestamp)`, append the new row. -/
def storeValue (tbl : List Row) (key : String) (value : JsonValue) (timestamp : Nat) :
    List Row :=
  tbl.filter (fun r => !(r.key == key && r.timestamp == timestamp)) ++
    [⟨key, serializeValue value, timestamp⟩]

/-- Row with the maximal `timestamp` (ORDER BY timestamp DESC LIMIT 1);
on a tie the earlier row is kept (ties cannot occur for a single key
under the UNIQUE(key, timestamp) constraint). -/
def maxByTs : List Row → Option Row
  | [] => none
  | r :: rs =>
      match maxByTs rs with
      | none => some r
      | some m => if m.timestamp ≤ r.timestamp then some r else some m

/-- SELECT ... WHERE key = ? ORDER BY timestamp DESC LIMIT 1: the raw row
(`getLatestValue` of src/database.js resolves the row without parsing). -/
def getLatestValue (tbl : List Row) (key : String) : Option Row :=
  maxByTs (tbl.filter (fun r => r.key == key))

/-- SELECT ... WHERE key = ? AND timestamp <= ? ORDER BY timestamp DESC LIMIT 1. -/
def lookupAsOf (tbl : List Row) (key : String) (t : Nat) : Option Row :=
  maxByTs (tbl.filter (fun r => r.key == key && decide (r.timestamp ≤ t)))

/-- JSON.parse of the stored text with fallback to the raw text when
parsing fails, as the read paths of database.js perform it. -/
def parseStored (s : String) : JsonValue :=
  (jsonParse s).getD (.str s)

/-- A deserialized version record as returned by `getValueAtTimestamp`. -/
structure VersionResult where
  key : String
  value : JsonValue
  timestamp : Nat
deriving Repr, DecidableEq

/-- Point-in-time read of src/database.js: select the qualifying row with
the maximal timestamp and JSON-parse its stored text (fallback raw). -/
def getValueAtTimestamp (tbl : List Row) (key : String) (t : Nat) : Option VersionResult :=
  (lookupAsOf tbl key t).map (fun r => ⟨r.key, parseStored r.value, r.timestamp⟩)

/-- Latest read of database-serverless.js, which does JSON-parse the
stored text (unlike `getLatestValue` of src/database.js). -/
def serverlessGetLatestValue (tbl : List Row) (key : String) : Option VersionResult :=
  (getLatestValue tbl key).map (fun r => ⟨r.key, parseStored r.value, r.timestamp⟩)

/-! ## Validators (src/validators.js). -/

/-- Characters allowed in a key by the Joi pattern `[a-zA-Z0-9_\-\.]`. -/
def isKeyChar (c : Char) : Bool :=
  c.isAlphanum || c == '_' || c == '-' || c == '.'

/-- Key validation: length 1..255 and only allowed characters. -/
def validateKey (key : String) : Bool :=
  decide (1 ≤ key.length) && decide (key.length ≤ 255) && key.data.all isKeyChar

/-- Body validation (`valueSchema`): a JSON object with at least one
property; everything else is rejected. -/
def validateValue : JsonValue → Bool
  | .obj fs => decide (1 ≤ fs.length)
  | _ => false

/-- parseInt on the digit-string pattern `\d+`: the parsed value when the
string is a nonempty run of decimal digits, none otherwise. -/
def parseIntStr (s : String) : Option Nat :=
  if s.data ≠ [] ∧ s.data.all Char.isDigit then some (digitsToNat 0 s.data) else none

/-- Timestamp-parameter validation (`timestampSchema`): a decimal digit
string whose value does not exceed now + 86400 seconds; the parsed value
is returned.  The `timestamp < 0` branch of the source is unreachable for
digit strings. -/
def validateTimestamp (raw : String) (nowSec : Nat) : Option Nat :=
  match parseIntStr raw with
  | some t => if t ≤ nowSec + 86400 then some t else none
  | none => none

/-! ## HTTP handlers of server.js (SQLite-backed server). -/

/-- An HTTP response: status code and JSON body. -/
structure HttpResponse where
  status : Nat
  body : JsonValue
deriving Repr, DecidableEq

/-- A JSON error body as the handlers build them. -/
def errBody (msg : String) : JsonValue :=
  .obj [("error", .str msg)]

/-- Field access in a JSON object body. -/
def getField (v : JsonValue) (name : String) : Option JsonValue :=
  match v with
  | .obj fs => List.lookup name fs
  | _ => none

/-- Latest-value branch of GET /object/:key in server.js: the raw stored
text of the row is returned as the value, with no timestamp field. -/
def latestReadResponse (tbl : List Row) (key : String) : HttpResponse :=
  match getLatestValue tbl key with
  | none => ⟨404, errBody "Key not found"⟩
  | some row => ⟨200, .obj [("value", .str row.value)]⟩

/-- Timestamp branch of GET /object/:key in server.js: the parsed value
is returned, with no timestamp field. -/
def asOfReadResponse (tbl : List Row) (key : String) (t : Nat) : HttpResponse :=
  match getValueAtTimestamp tbl key t with
  | none => ⟨404, errBody "No value found for key at the specified timestamp"⟩
  | some res => ⟨200, .obj [("value", res.value)]⟩

/-- GET /object/:key of server.js.  The `if (timestamp)` truthiness test
sends an absent or empty query parameter to the latest branch. -/
def getObjectHandler (tbl : List Row) (key : String) (tsParam : Option String)
    (nowSec : Nat) : HttpResponse :=
  if validateKey key = false then ⟨400, errBody "Invalid key"⟩
  else
    match tsParam with
    | some ts =>
        if ts = "" then latestReadResponse tbl key
        else
          match validateTimestamp ts nowSec with
          | none => ⟨400, errBody "Invalid timestamp"⟩
          | some t => asOfReadResponse tbl key t
    | none => latestReadResponse tbl key

/-- POST /object of server.js: body validation, exactly-one-entry check,
key validation, timestamp assignment `Math.floor(Date.now() / 1000)`,
then `storeValue`. -/
def postObjectHandler (tbl : List Row) (body : JsonValue) (nowMs : Nat) :
    HttpResponse × List Row :=
  if validateValue body = false then (⟨400, errBody "Invalid request body"⟩, tbl)
  else
    match body with
    | .obj [(key, value)] =>
        if validateKey key = false then (⟨400, errBody "Invalid key"⟩, tbl)
        else
          let timestamp := nowMs / 1000
          (⟨200, .obj [("key", .str key), ("value", value),
              ("timestamp", .num (Int.ofNat timestamp))]⟩,
            storeValue tbl key value timestamp)
    | _ => (⟨400, errBody "Request body must contain exactly one key-value pair"⟩, tbl)

/-- The write-body contract of the spec, as server.js composes it
(validateValue followed by the exactly-one-entry check). -/
inductive BodyCheck where
  | invalidBody : BodyCheck
  | notExactlyOne : BodyCheck
  | ok : String → JsonValue → BodyCheck
deriving Repr, DecidableEq

/-- Composite body validation of POST /object (server.js lines 69-96). -/
def validateWriteBody (body : JsonValue) : BodyCheck :=
  if validateValue body = false then .invalidBody
  else
    match body with
    | .obj [(k, v)] => .ok k v
    | _ => .notExactlyOne

/-- Acceptance predicate of `validateWriteBody`. -/
def writeBodyAccepted (body : JsonValue) : Bool :=
  match validateWriteBody body with
  | .ok _ _ => true
  | _ => false

/-! ## MongoDB backend (src/database-mongodb.js) and its server
(server-mongodb.js, first of the concatenated servers).  `storeValue`
uses a plain insertOne and the created indexes are not unique, so no
uniqueness is enforced on `(key, timestamp)`. -/

/-- One document of the `kv_pairs` collection. -/
structure MongoDoc where
  key : String
  value : JsonValue
  timestamp : Nat
deriving Repr, DecidableEq

/-- insertOne: append a new document with the current timestamp. -/
def mongoStoreValue (coll : List MongoDoc) (key : String) (value : JsonValue)
    (nowSec : Nat) : List MongoDoc :=
  coll ++ [⟨key, value, nowSec⟩]

/-- Document with the maximal `timestamp` (findOne with sort timestamp -1). -/
def mongoMaxByTs : List MongoDoc → Option MongoDoc
  | [] => none
  | d :: ds =>
      match mongoMaxByTs ds with
      | none => some d
      | some m => if m.timestamp ≤ d.timestamp then some d else some m

/-- getValue: findOne on `key` (adding `timestamp <= parseInt(ts)` when a
truthy timestamp parameter is given), sorted by timestamp descending.
parseInt is modelled by toNat? (the handler only passes validated digit
strings here). -/
def mongoGetValue (coll : List MongoDoc) (key : String) (tsParam : Option String) :
    Option (JsonValue × Nat) :=
  let docs := coll.filter (fun d => d.key == key)
  let filtered :=
    match tsParam with
    | some ts =>
        if ts = "" then docs
        else docs.filter (fun d => decide (d.timestamp ≤ (parseIntStr ts).getD 0))
    | none => docs
  (mongoMaxByTs filtered).map (fun d => (d.value, d.timestamp))

/-- GET /object/:key of server-mongodb.js: the key is passed to the
backend without any `validateKey` call; only a truthy timestamp parameter
is validated. -/
def mongoGetHandler (coll : List MongoDoc) (key : String) (tsParam : Option String)
    (nowSec : Nat) : HttpResponse :=
  let tsInvalid : Bool :=
    match tsParam with
    | some ts => if ts = "" then false else (validateTimestamp ts nowSec).isNone
    | none => false
  if tsInvalid then ⟨400, errBody "Invalid timestamp"⟩
  else
    match mongoGetValue coll key tsParam with
    | none => ⟨404, errBody "Key not found"⟩
    | some (v, _) => ⟨200, .obj [("value", v)]⟩

/-- POST /object of server-mongodb.js: body and key validation, then
`mongoStoreValue` with the current wall-clock second. -/
def mongoPostHandler (coll : List MongoDoc) (body : JsonValue) (nowSec : Nat) :
    HttpResponse × List MongoDoc :=
  if validateValue body = false then (⟨400, errBody "Invalid request body"⟩, coll)
  else
    match body with
    | .obj [(key, value)] =>
        if validateKey key = false then (⟨400, errBody "Invalid key"⟩, coll)
        else
          (⟨200, .obj [("key", .str key), ("value", value),
              ("timestamp", .num (Int.ofNat nowSec))]⟩,
            mongoStoreValue coll key value nowSec)
    | _ => (⟨400, errBody "Request body must contain exactly one key-value pair"⟩, coll)

/-! ## In-memory store of the serverless API entry point (api/index.js):
a Map from key to an array of `{value, timestamp}` versions, appended on
every write (no same-tick replacement). -/

/-- The module-level `store` Map, as an association list. -/
abbrev MemStore := List (String × List (JsonValue × Nat))

/-- POST /object push: create the key's array if absent and push the new
version at the end. -/
def memPut : MemStore → String → JsonValue → Nat → MemStore
  | [], key, v, t => [(key, [(v, t)])]
  | (k, vs) :: rest, key, v, t =>
      if k = key then (k, vs ++ [(v, t)]) :: rest
      else (k, vs) :: memPut rest key v t

/-- Latest-version response of api/index.js: `versions[versions.length - 1]`. -/
def memLatestResponse (versions : List (JsonValue × Nat)) : HttpResponse :=
  match versions.getLast? with
  | none => ⟨404, errBody "Key not found"⟩
  | some lv => ⟨200, .obj [("value", lv.1)]⟩

/-- GET /object/:key of api/index.js: key validation, then the versions
array; the timestamp branch filters `v.timestamp <= target` and takes the
last element of the filtered array. -/
def memGetHandler (store : MemStore) (key : String) (tsParam : Option String)
    (nowSec : Nat) : HttpResponse :=
  if validateKey key = false then ⟨400, errBody "Invalid key"⟩
  else
    match List.lookup key store with
    | none => ⟨404, errBody "Key not found"⟩
    | some versions =>
        if versions.isEmpty then ⟨404, errBody "Key not found"⟩
        else
          match tsParam with
          | some ts =>
              if ts = "" then memLatestResponse versions
              else
                match validateTimestamp ts nowSec with
                | none => ⟨400, errBody "Invalid timestamp"⟩
                | some target =>
                    match (versions.filter (fun v => decide (v.2 ≤ target))).getLast? with
                    | none => ⟨404, errBody "No value found for key at the specified timestamp"⟩
                    | some lv => ⟨200, .obj [("value", lv.1)]⟩
          | none => memLatestResponse versions

/-- POST /object of api/index.js. -/
def memPostHandler (store : MemStore) (body : JsonValue) (nowSec : Nat) :
    HttpResponse × MemStore :=
  if validateValue body = false then (⟨400, errBody "Invalid request body"⟩, store)
  else
    match body with
    | .obj [(key, value)] =>
        if validateKey key = false then (⟨400, errBody "Invalid key"⟩, store)
        else
          (⟨200, .obj [("key", .str key), ("value", value),
              ("timestamp", .num (Int.ofNat nowSec))]⟩,
            memPut store key value nowSec)
    | _ => (⟨400, errBody "Request body must contain exactly one key-value pair"⟩, store)

/-! ## Failing writes (src/database.js storeValue, error branch).

`storeValue` runs a single `INSERT OR REPLACE` statement; a SQLite
statement either commits in full or fails with no change, so a rejected
`db.run` leaves the table untouched.  The error branch maps the SQLite
error code to a distinct Error message and rejects; no retry is attempted
(connection retries exist only in `init`). -/

/-- SQLite error conditions distinguished by the storeValue error branch. -/
inductive SqliteErr where
  | constraint : String → SqliteErr
  | full : SqliteErr
  | busy : SqliteErr
  | other : String → SqliteErr
deriving Repr, DecidableEq

/-- Error message produced by the storeValue error branch. -/
def storeErrorMessage : SqliteErr → String
  | .constraint m => "Constraint violation: " ++ m
  | .full => "Database storage full"
  | .busy => "Database is busy, please retry"
  | .other m => "Database operation failed: " ++ m

/-- storeValue with its failure behaviour: when `db.run` reports an error
the promise rejects with the mapped message and the table is unchanged;
otherwise the row is committed. -/
def storeValueR (tbl : List Row) (key : String) (value : JsonValue) (timestamp : Nat)
    (dbErr : Option SqliteErr) : Except String Unit × List Row :=
  match dbErr with
  | some e => (.error (storeErrorMessage e), tbl)
  | none => (.ok (), storeValue tbl key value timestamp)

/-- Selection used by the in-memory timestamp branch: filter the versions
with timestamp at most the target and take the last. -/
def memAsOf (versions : List (JsonValue × Nat)) (target : Nat) : Option (JsonValue × Nat) :=
  (versions.filter (fun v => decide (v.2 ≤ target))).getLast?

/-- Uniqueness invariant of the `UNIQUE(key, timestamp)` constraint:
no two rows share the same key and timestamp. -/
def uniqueKeyTs (tbl : List Row) : Prop :=
  List.Pairwise (fun a b => ¬(a.key = b.key ∧ a.timestamp = b.timestamp)) tbl

/-! ## Helper lemmas. -/

theorem maxByTs_eq_none_iff (xs : List Row) : maxByTs xs = none ↔ xs = [] := by
  cases xs with
  | nil => simp [maxByTs]
  | cons r rs =>
      simp only [maxByTs]
      cases maxByTs rs with
      | none => simp
      | some m =>
          by_cases h : m.timestamp ≤ r.timestamp <;> simp [h]

theorem maxByTs_mem_max :
    ∀ (xs : List Row) (m : Row), maxByTs xs = some m →
      m ∈ xs ∧ ∀ x ∈ xs, x.timestamp ≤ m.timestamp
  | [], m, h => by simp [maxByTs] at h
  | r :: rs, m, h => by
      cases hm : maxByTs rs with
      | none =>
          have hrs : rs = [] := (maxByTs_eq_none_iff rs).mp hm
          subst hrs
          simp [maxByTs] at h
          subst h
          simp
      | some mx =>
          have hrec := maxByTs_mem_max rs mx hm
          simp only [maxByTs, hm] at h
          by_cases hle : mx.timestamp ≤ r.timestamp
          · rw [if_pos hle] at h
            injection h with h
            subst h
            refine ⟨List.mem_cons_self _ _, ?_⟩
            intro x hx
            rcases List.mem_cons.mp hx with hx | hx
            · subst hx; exact le_refl _
            · exact le_trans (hrec.2 x hx) hle
          · rw [if_neg hle] at h
            injection h with h
            subst h
            refine ⟨List.mem_cons_of_mem _ hrec.1, ?_⟩
            intro x hx
            rcases List.mem_cons.mp hx with hx | hx
            · subst hx; exact le_of_not_le hle
            · exact hrec.2 x hx

theorem maxByTs_append_last (xs : List Row) (r : Row)
    (h : ∀ x ∈ xs, x.timestamp < r.timestamp) :
    maxByTs (xs ++ [r]) = some r := by
  induction xs with
  | nil => simp [maxByTs]
  | cons x xs ih =>
      have hx := h x (List.mem_cons_self _ _)
      have ih2 := ih (fun y hy => h y (List.mem_cons_of_mem _ hy))
      have hnot : ¬ r.timestamp ≤ x.timestamp := not_le_of_lt hx
      show maxByTs (x :: (xs ++ [r])) = some r
      simp only [maxByTs, ih2]
      rw [if_neg hnot]

theorem getLast?_some_mem {α : Type} : ∀ {l : List α} {a : α}, l.getLast? = some a → a ∈ l
  | [], a, h => by simp at h
  | [x], a, h => by
      simp [List.getLast?] at h
      subst h; simp
  | x :: y :: l, a, h => by
      rw [List.getLast?_cons_cons] at h
      exact List.mem_cons_of_mem _ (getLast?_some_mem h)

theorem sorted_getLast?_max :
    ∀ (l : List (JsonValue × Nat)), List.Pairwise (fun a b => a.2 ≤ b.2) l →
      ∀ lv, l.getLast? = some lv → ∀ v ∈ l, v.2 ≤ lv.2
  | [], _, lv, h => by simp at h
  | [x], _, lv, h => by
      simp [List.getLast?] at h
      subst h
      intro v hv
      simp at hv
      subst hv; exact le_refl _
  | x :: y :: l, hs, lv, h => by
      rw [List.getLast?_cons_cons] at h
      have hs2 := List.Pairwise.of_cons hs
      have hhead := (List.pairwise_cons.mp hs).1
      intro v hv
      rcases List.mem_cons.mp hv with hv | hv
      · subst hv
        have hmem := getLast?_some_mem h
        exact le_trans (hhead lv hmem) (le_refl _)
      · exact sorted_getLast?_max (y :: l) hs2 lv h v hv

/-! ## Claim theorems. -/

/-- C1: for every key and query timestamp t, the point-in-time read
returns the stored record with the maximum timestamp that is at most t,
and returns NotFound (none / HTTP 404) when no record for the key has
timestamp at most t — including when the key has no records at all or
when every record's timestamp is strictly greater than t; the in-memory
timestamp branch (last element of the filtered, chronologically sorted
versions array) selects the same maximal record. -/
theorem getValueAtTimestamp_max_le_semantics :
    ∀ (tbl : List Row) (key : String) (t : Nat),
      (getValueAtTimestamp tbl key t = none ↔ ∀ r ∈ tbl, r.key = key → t < r.timestamp) ∧
      (∀ res, getValueAtTimestamp tbl key t = some res →
        ∃ r, r ∈ tbl ∧ r.key = key ∧ r.timestamp ≤ t ∧
          res = ⟨key, parseStored r.value, r.timestamp⟩ ∧
          ∀ r2 ∈ tbl, r2.key = key → r2.timestamp ≤ t → r2.timestamp ≤ r.timestamp) ∧
      (∀ (tsRaw : String) (t2 nowSec : Nat), validateKey key = true →
        validateTimestamp tsRaw nowSec = some t2 →
        getValueAtTimestamp tbl key t2 = none →
        getObjectHandler tbl key (some tsRaw) nowSec =
          ⟨404, errBody "No value found for key at the specified timestamp"⟩) ∧
      (∀ (versions : List (JsonValue × Nat)) (target : Nat),
        List.Pairwise (fun a b => a.2 ≤ b.2) versions →
          (memAsOf versions target = none ↔ ∀ v ∈ versions, target < v.2) ∧
          (∀ lv, memAsOf versions target = some lv →
            lv ∈ versions ∧ lv.2 ≤ target ∧ ∀ v ∈ versions, v.2 ≤ target → v.2 ≤ lv.2)) := by
  intro tbl key t
  refine ⟨?_, ?_, ?_, ?_⟩
  · unfold getValueAtTimestamp lookupAsOf
    rw [Option.map_eq_none', maxByTs_eq_none_iff, List.filter_eq_nil_iff]
    constructor
    · intro h r hr hk
      have h2 := h r hr
      simp [hk, decide_eq_true_eq] at h2
      omega
    · intro h r hr
      simp only [Bool.and_eq_true, beq_iff_eq, decide_eq_true_eq, not_and]
      intro hk
      have := h r hr hk
      omega
  · intro res hres
    unfold getValueAtTimestamp at hres
    cases hl : lookupAsOf tbl key t with
    | none => rw [hl] at hres; simp at hres
    | some r =>
        rw [hl] at hres
        simp only [Option.map_some'] at hres
        unfold lookupAsOf at hl
        have hmm := maxByTs_mem_max _ _ hl
        have hmf := List.mem_filter.mp hmm.1
        have hcond := hmf.2
        simp only [Bool.and_eq_true, beq_iff_eq, decide_eq_true_eq] at hcond
        refine ⟨r, hmf.1, hcond.1, hcond.2, ?_, ?_⟩
        · injection hres with hres2
          rw [← hres2, hcond.1]
        · intro r2 h2 hk2 hle2
          have hin : r2 ∈ tbl.filter (fun r => r.key == key && decide (r.timestamp ≤ t)) :=
            List.mem_filter.mpr ⟨h2, by simp [hk2, decide_eq_true_eq, hle2]⟩
          exact hmm.2 r2 hin
  · intro tsRaw t2 nowSec hvk hvt hnone
    have hne : tsRaw ≠ "" := by
      intro he
      subst he
      have h0 : parseIntStr "" = none := by decide
      unfold validateTimestamp at hvt
      rw [h0] at hvt
      exact Option.noConfusion hvt
    simp [getObjectHandler, hvk, hne, hvt, asOfReadResponse, hnone]
  · intro versions target hsorted
    constructor
    · unfold memAsOf
      rw [List.getLast?_eq_none_iff, List.filter_eq_nil_iff]
      constructor
      · intro h v hv
        have h2 := h v hv
        simp [decide_eq_true_eq] at h2
        omega
      · intro h v hv
        simp only [decide_eq_true_eq]
        have := h v hv
        omega
    · intro lv hlv
      unfold memAsOf at hlv
      have hmem := getLast?_some_mem hlv
      have hmf := List.mem_filter.mp hmem
      have hsf : List.Pairwise (fun a b => a.2 ≤ b.2)
          (versions.filter (fun v => decide (v.2 ≤ target))) :=
        List.Pairwise.sublist (List.filter_sublist versions) hsorted
      refine ⟨hmf.1, by simpa using hmf.2, ?_⟩
      intro v hv hvle
      have hvf : v ∈ versions.filter (fun v => decide (v.2 ≤ target)) :=
        List.mem_filter.mpr ⟨hv, by simp [hvle]⟩
      exact sorted_getLast?_max _ hsf lv hlv v hvf

/-- Witness for C1 at a concrete table: a read strictly before the key's
first write timestamp yields NotFound. -/
theorem getValueAtTimestamp_max_le_semantics_witness :
    getValueAtTimestamp [⟨"k", "v", 5⟩] "k" 3 = none :=
  ((getValueAtTimestamp_max_le_semantics [⟨"k", "v", 5⟩] "k" 3).1).mpr (by decide)

theorem getLatestValue_after_store (tbl : List Row) (key : String) (v : JsonValue) (t : Nat)
    (h : ∀ r ∈ tbl, r.key = key → r.timestamp ≤ t) :
    getLatestValue (storeValue tbl key v t) key = some ⟨key, serializeValue v, t⟩ := by
  unfold getLatestValue storeValue
  rw [List.filter_append]
  have hlast : List.filter (fun r => r.key == key)
      ([⟨key, serializeValue v, t⟩] : List Row) = [⟨key, serializeValue v, t⟩] := by simp
  rw [hlast]
  apply maxByTs_append_last
  intro x hx
  have h1 := List.mem_filter.mp hx
  have h2 := List.mem_filter.mp h1.1
  have hk : x.key = key := by simpa using h1.2
  have hne : x.timestamp ≠ t := by
    have h3 := h2.2
    simp [hk] at h3
    exact h3
  have hle := h x h2.1 hk
  simp only [Row.mk.injEq] at *
  omega

/-- C2 counterexample: writing the number 42 and reading the key back
with no timestamp succeeds (HTTP 200) but returns the serialized string
"42" rather than the written JSON number, and the response body carries
no timestamp field at all. -/
theorem latest_read_serialized_cex :
    (getObjectHandler (postObjectHandler [] (.obj [("k", .num 42)]) 10500).2 "k" none 100).status
      = 200 ∧
    getField (getObjectHandler (postObjectHandler [] (.obj [("k", .num 42)]) 10500).2
      "k" none 100).body "value" = some (.str "42") ∧
    JsonValue.str "42" ≠ JsonValue.num 42 ∧
    getField (getObjectHandler (postObjectHandler [] (.obj [("k", .num 42)]) 10500).2
      "k" none 100).body "timestamp" = none := by
  decide

/-- C2 (amended): after a successful write of (key, v), the no-timestamp
read returns HTTP 200 whose body holds exactly the stored serialized text
as the value (equal to the written value precisely when it is a string)
and no timestamp field; the write's own response carries the assigned
timestamp floor(nowMs/1000), which is at least the wall-clock second of
any instant preceding the write. -/
theorem write_then_latest_read_amended :
    ∀ (tbl : List Row) (key : String) (v : JsonValue) (nowMs tBeforeMs nowSec : Nat),
      validateKey key = true →
      (∀ r ∈ tbl, r.key = key → r.timestamp ≤ nowMs / 1000) →
      tBeforeMs ≤ nowMs →
      (postObjectHandler tbl (.obj [(key, v)]) nowMs).1.status = 200 ∧
      getField (postObjectHandler tbl (.obj [(key, v)]) nowMs).1.body "timestamp" =
        some (.num (Int.ofNat (nowMs / 1000))) ∧
      tBeforeMs / 1000 ≤ nowMs / 1000 ∧
      getObjectHandler (postObjectHandler tbl (.obj [(key, v)]) nowMs).2 key none nowSec =
        ⟨200, .obj [("value", .str (serializeValue v))]⟩ ∧
      (∀ s, v = .str s → serializeValue v = s) := by
  intro tbl key v nowMs tBeforeMs nowSec hvk hts hbefore
  refine ⟨?_, ?_, ?_, ?_, ?_⟩
  · simp [postObjectHandler, validateValue, hvk]
  · simp [postObjectHandler, validateValue, hvk, getField, List.lookup]
  · exact Nat.div_le_div_right hbefore
  · have hl := getLatestValue_after_store tbl key v (nowMs / 1000) hts
    simp [postObjectHandler, validateValue, hvk, getObjectHandler, latestReadResponse, hl]
  · intro s hs
    subst hs
    rfl

/-- Witness for the amended C2 at a concrete write of the number 7. -/
theorem write_then_latest_read_amended_witness :
    validateKey "k" = true ∧
    getObjectHandler (postObjectHandler [] (.obj [("k", .num 7)]) 5999).2 "k" none 100 =
      ⟨200, .obj [("value", .str "7")]⟩ := by
  refine ⟨by decide, ?_⟩
  have h := write_then_latest_read_amended [] "k" (.num 7) 5999 4000 100 (by decide)
    (by intro r hr; simp at hr) (by decide)
  have h2 := h.2.2.2.1
  rw [show serializeValue (.num 7) = "7" from by decide] at h2
  exact h2

/-- C3 counterexample: two successful writes to the same key within the
same timestamp tick leave two records with that (key, timestamp) in both
the in-memory store (api/index.js pushes unconditionally) and the MongoDB
collection (insertOne with no unique index), so the uniqueness rule holds
only in the SQLite-backed variants. -/
theorem duplicate_same_tick_cex :
    (memPostHandler [] (.obj [("k", .str "a")]) 100).1.status = 200 ∧
    (memPostHandler (memPostHandler [] (.obj [("k", .str "a")]) 100).2
      (.obj [("k", .str "b")]) 100).1.status = 200 ∧
    List.lookup "k" (memPostHandler (memPostHandler [] (.obj [("k", .str "a")]) 100).2
      (.obj [("k", .str "b")]) 100).2 = some [(.str "a", 100), (.str "b", 100)] ∧
    ((mongoPostHandler (mongoPostHandler [] (.obj [("k", .str "a")]) 100).2
      (.obj [("k", .str "b")]) 100).2.filter
        (fun d => d.key == "k" && d.timestamp == 100)).length = 2 := by
  decide

/-- C3 (amended): the SQLite-backed variants (durable-embedded and
serverless, both running INSERT OR REPLACE under UNIQUE(key, timestamp))
preserve at-most-one-record-per-(key, timestamp) and give the repeated
same-tick write last-write-wins: after the write, the unique record at
(key, t) is the newly written one.  The MongoDB and in-memory variants do
not share this rule (see the counterexample). -/
theorem sqlite_unique_lww_amended :
    ∀ (tbl : List Row) (key : String) (v : JsonValue) (t : Nat),
      uniqueKeyTs tbl →
      uniqueKeyTs (storeValue tbl key v t) ∧
      (storeValue tbl key v t).filter (fun r => r.key == key && r.timestamp == t) =
        [⟨key, serializeValue v, t⟩] := by
  intro tbl key v t hu
  constructor
  · unfold storeValue uniqueKeyTs
    rw [List.pairwise_append]
    refine ⟨List.Pairwise.sublist (List.filter_sublist tbl) hu, by simp, ?_⟩
    intro a ha b hb
    simp only [List.mem_singleton] at hb
    subst hb
    have h2 := (List.mem_filter.mp ha).2
    simp only [Bool.not_eq_true', Bool.and_eq_false_iff, beq_eq_false_iff_ne, ne_eq] at h2
    intro hc
    rcases h2 with h2 | h2
    · exact h2 hc.1
    · exact h2 hc.2
  · unfold storeValue
    rw [List.filter_append]
    have h1 : (tbl.filter (fun r => !(r.key == key && r.timestamp == t))).filter
        (fun r => r.key == key && r.timestamp == t) = [] := by
      rw [List.filter_eq_nil_iff]
      intro a ha
      have h2 := (List.mem_filter.mp ha).2
      simp only [Bool.not_eq_true'] at h2
      simp [h2]
    rw [h1]
    simp

/-- Witness for the amended C3: a same-tick repeated write on a singleton
table keeps exactly one record, holding the second value. -/
theorem sqlite_unique_lww_amended_witness :
    uniqueKeyTs (storeValue [⟨"k", "a", 100⟩] "k" (.str "b") 100) ∧
    (storeValue [⟨"k", "a", 100⟩] "k" (.str "b") 100).filter
      (fun r => r.key == "k" && r.timestamp == 100) = [⟨"k", "b", 100⟩] :=
  sqlite_unique_lww_amended [⟨"k", "a", 100⟩] "k" (.str "b") 100 (by simp [uniqueKeyTs])

/-- C4 counterexample: (a) writing the numbers 1 then 2 at distinct ticks
and reading back with no timestamp returns the string "2", not the second
written value; (b) two writes in the same tick replace the first record,
so the read at the first write's timestamp returns the second value, not
the first. -/
theorem two_writes_read_cex :
    getObjectHandler (postObjectHandler
        (postObjectHandler [] (.obj [("k", .num 1)]) 10000).2
        (.obj [("k", .num 2)]) 11000).2 "k" none 100 =
      ⟨200, .obj [("value", .str "2")]⟩ ∧
    JsonValue.str "2" ≠ JsonValue.num 2 ∧
    getObjectHandler (postObjectHandler
        (postObjectHandler [] (.obj [("k", .str "a")]) 10000).2
        (.obj [("k", .str "b")]) 10400).2 "k" (some "10") 100 =
      ⟨200, .obj [("value", .str "b")]⟩ ∧
    JsonValue.str "b" ≠ JsonValue.str "a" := by
  decide

/-- C4 (amended): for a fresh key written twice at strictly increasing
timestamps with string values whose first value's text does not itself
parse as JSON, the no-timestamp read returns the second value and the
read at the first write's timestamp returns the first value. -/
theorem two_writes_read_amended :
    ∀ (tbl : List Row) (key v1 v2 : String) (t1 t2 : Nat) (tsRaw : String) (nowSec : Nat),
      validateKey key = true →
      (∀ r ∈ tbl, r.key ≠ key) →
      t1 < t2 →
      jsonParse v1 = none →
      validateTimestamp tsRaw nowSec = some t1 →
      getObjectHandler (storeValue (storeValue tbl key (.str v1) t1) key (.str v2) t2)
        key none nowSec = ⟨200, .obj [("value", .str v2)]⟩ ∧
      getObjectHandler (storeValue (storeValue tbl key (.str v1) t1) key (.str v2) t2)
        key (some tsRaw) nowSec = ⟨200, .obj [("value", .str v1)]⟩ := by
  intro tbl key v1 v2 t1 t2 tsRaw nowSec hvk hfresh hlt hparse hvt
  have hne : tsRaw ≠ "" := by
    intro he
    subst he
    have h0 : parseIntStr "" = none := by decide
    unfold validateTimestamp at hvt
    rw [h0] at hvt
    exact Option.noConfusion hvt
  have ht12 : t1 ≠ t2 := Nat.ne_of_lt hlt
  have hnot21 : ¬ (t2 ≤ t1) := not_le_of_lt hlt
  constructor
  · have hA : ∀ r ∈ storeValue tbl key (.str v1) t1, r.key = key → r.timestamp ≤ t2 := by
      intro r hr hk
      unfold storeValue at hr
      rcases List.mem_append.mp hr with hr | hr
      · exact absurd hk (hfresh r ((List.mem_filter.mp hr).1))
      · simp only [List.mem_singleton] at hr
        subst hr
        exact Nat.le_of_lt hlt
    have hl := getLatestValue_after_store (storeValue tbl key (.str v1) t1) key (.str v2) t2 hA
    simp [getObjectHandler, hvk, latestReadResponse, hl, serializeValue]
  · have hfilter : (storeValue (storeValue tbl key (.str v1) t1) key (.str v2) t2).filter
        (fun r => r.key == key && decide (r.timestamp ≤ t1)) = [⟨key, v1, t1⟩] := by
      unfold storeValue
      simp only [List.filter_append]
      have e1 : List.filter (fun r => r.key == key && decide (r.timestamp ≤ t1))
          (List.filter (fun r => !(r.key == key && r.timestamp == t2))
            (List.filter (fun r => !(r.key == key && r.timestamp == t1)) tbl)) = [] := by
        rw [List.filter_eq_nil_iff]
        intro a ha
        have hmem := (List.mem_filter.mp ((List.mem_filter.mp ha).1)).1
        have hk := hfresh a hmem
        simp [hk]
      have e2 : List.filter (fun r => !(r.key == key && r.timestamp == t2))
          ([⟨key, serializeValue (.str v1), t1⟩] : List Row) =
            [⟨key, serializeValue (.str v1), t1⟩] := by
        simp [ht12]
      have e3 : List.filter (fun r => r.key == key && decide (r.timestamp ≤ t1))
          ([⟨key, serializeValue (.str v1), t1⟩] : List Row) =
            [⟨key, serializeValue (.str v1), t1⟩] := by
        simp
      have e4 : List.filter (fun r => r.key == key && decide (r.timestamp ≤ t1))
          ([⟨key, serializeValue (.str v2), t2⟩] : List Row) = [] := by
        simp [hnot21]
      rw [e2, e1, e3, e4]
      simp [serializeValue]
    have hasof : getValueAtTimestamp
        (storeValue (storeValue tbl key (.str v1) t1) key (.str v2) t2) key t1 =
          some ⟨key, .str v1, t1⟩ := by
      unfold getValueAtTimestamp lookupAsOf
      rw [hfilter]
      simp [maxByTs, parseStored, hparse]
    simp [getObjectHandler, hvk, hne, hvt, asOfReadResponse, hasof]

/-- Witness for the amended C4 at the spec's own scenario values. -/
theorem two_writes_read_amended_witness :
    validateKey "mykey" = true ∧ jsonParse "value1" = none ∧
    getObjectHandler (storeValue (storeValue [] "mykey" (.str "value1") 100)
      "mykey" (.str "value2") 101) "mykey" none 1000 =
        ⟨200, .obj [("value", .str "value2")]⟩ ∧
    getObjectHandler (storeValue (storeValue [] "mykey" (.str "value1") 100)
      "mykey" (.str "value2") 101) "mykey" (some "100") 1000 =
        ⟨200, .obj [("value", .str "value1")]⟩ := by
  have h := two_writes_read_amended [] "mykey" "value1" "value2" 100 101 "100" 1000
    (by decide) (by intro r hr; simp at hr) (by decide) (by decide) (by decide)
  exact ⟨by decide, by decide, h.1, h.2⟩

/-- C5 counterexample: successful reads — latest and point-in-time, in
both the SQLite server and the in-memory server — return HTTP 200 bodies
that contain no timestamp field. -/
theorem read_response_no_timestamp_cex :
    (getObjectHandler (storeValue [] "k" (.str "v") 10) "k" none 50).status = 200 ∧
    getField (getObjectHandler (storeValue [] "k" (.str "v") 10) "k" none 50).body
      "timestamp" = none ∧
    (getObjectHandler (storeValue [] "k" (.str "v") 10) "k" (some "10") 50).status = 200 ∧
    getField (getObjectHandler (storeValue [] "k" (.str "v") 10) "k" (some "10") 50).body
      "timestamp" = none ∧
    (memGetHandler (memPut [] "k" (.str "v") 10) "k" none 50).status = 200 ∧
    getField (memGetHandler (memPut [] "k" (.str "v") 10) "k" none 50).body
      "timestamp" = none ∧
    (memGetHandler (memPut [] "k" (.str "v") 10) "k" (some "10") 50).status = 200 ∧
    getField (memGetHandler (memPut [] "k" (.str "v") 10) "k" (some "10") 50).body
      "timestamp" = none := by
  decide

/-- C5 (amended): every successful read — latest and point-in-time, in
the SQLite server and in the in-memory server — returns HTTP 200 whose
body holds exactly the value field (the raw stored text for the SQLite
latest branch, the parsed value for the SQLite timestamp branch, the
stored value for both in-memory branches) and no timestamp. -/
theorem read_response_value_only_amended :
    ∀ (tbl : List Row) (key : String) (nowSec : Nat),
      validateKey key = true →
      (∀ row, getLatestValue tbl key = some row →
        getObjectHandler tbl key none nowSec = ⟨200, .obj [("value", .str row.value)]⟩) ∧
      (∀ tsRaw t res, validateTimestamp tsRaw nowSec = some t →
        getValueAtTimestamp tbl key t = some res →
        getObjectHandler tbl key (some tsRaw) nowSec = ⟨200, .obj [("value", res.value)]⟩) ∧
      (∀ (store : MemStore) versions lv, List.lookup key store = some versions →
        versions.getLast? = some lv →
        memGetHandler store key none nowSec = ⟨200, .obj [("value", lv.1)]⟩) ∧
      (∀ (store : MemStore) versions tsRaw target lv,
        List.lookup key store = some versions →
        validateTimestamp tsRaw nowSec = some target →
        memAsOf versions target = some lv →
        memGetHandler store key (some tsRaw) nowSec = ⟨200, .obj [("value", lv.1)]⟩) := by
  intro tbl key nowSec hvk
  refine ⟨?_, ?_, ?_, ?_⟩
  · intro row hrow
    simp [getObjectHandler, hvk, latestReadResponse, hrow]
  · intro tsRaw t res hvt hres
    have hne : tsRaw ≠ "" := by
      intro he
      subst he
      have h0 : parseIntStr "" = none := by decide
      unfold validateTimestamp at hvt
      rw [h0] at hvt
      exact Option.noConfusion hvt
    simp [getObjectHandler, hvk, hne, hvt, asOfReadResponse, hres]
  · intro store versions lv hlook hlast
    have hnonempty : versions.isEmpty = false := by
      cases versions with
      | nil => simp at hlast
      | cons x xs => rfl
    simp [memGetHandler, hvk, hlook, hnonempty, memLatestResponse, hlast]
  · intro store versions tsRaw target lv hlook hvt hlv
    have hne : tsRaw ≠ "" := by
      intro he
      subst he
      have h0 : parseIntStr "" = none := by decide
      unfold validateTimestamp at hvt
      rw [h0] at hvt
      exact Option.noConfusion hvt
    unfold memAsOf at hlv
    have hnonempty : versions.isEmpty = false := by
      cases versions with
      | nil => simp at hlv
      | cons x xs => rfl
    simp [memGetHandler, hvk, hlook, hnonempty, hne, hvt, hlv]

/-- Witness for the amended C5 at a concrete one-row table and at the
in-memory store's point-in-time branch. -/
theorem read_response_value_only_amended_witness :
    validateKey "k" = true ∧
    getObjectHandler [⟨"k", "v", 10⟩] "k" none 50 = ⟨200, .obj [("value", .str "v")]⟩ ∧
    memGetHandler (memPut [] "k" (.str "v") 10) "k" (some "10") 50 =
      ⟨200, .obj [("value", .str "v")]⟩ :=
  ⟨by decide,
    (read_response_value_only_amended [⟨"k", "v", 10⟩] "k" 50 (by decide)).1
      ⟨"k", "v", 10⟩ (by decide),
    (read_response_value_only_amended [] "k" 50 (by decide)).2.2.2
      (memPut [] "k" (.str "v") 10) [(.str "v", 10)] "10" 10 (.str "v", 10)
      (by decide) (by decide) (by decide)⟩

/-- C6 counterexample: the MongoDB server's read handler never runs
validateKey — a syntactically invalid key is passed straight to the
backend query, yielding 404 (or even 200 when a matching document
exists) instead of a validation error. -/
theorem mongo_read_skips_key_validation_cex :
    validateKey "invalid key!" = false ∧
    mongoGetHandler [] "invalid key!" none 50 = ⟨404, errBody "Key not found"⟩ ∧
    mongoGetHandler [⟨"invalid key!", .str "v", 5⟩] "invalid key!" none 50 =
      ⟨200, .obj [("value", .str "v")]⟩ := by
  decide

/-- C6 (amended): the SQLite server and the in-memory server run
validateKey first on every read and reject an invalid key with a 400
validation error whatever the store contains (so the backend is never
consulted); the MongoDB server's read path omits this check. -/
theorem read_key_validation_amended :
    ∀ (tbl : List Row) (store : MemStore) (key : String) (tsParam : Option String)
      (nowSec : Nat),
      validateKey key = false →
      getObjectHandler tbl key tsParam nowSec = ⟨400, errBody "Invalid key"⟩ ∧
      memGetHandler store key tsParam nowSec = ⟨400, errBody "Invalid key"⟩ := by
  intro tbl store key tsParam nowSec h
  exact ⟨by simp [getObjectHandler, h], by simp [memGetHandler, h]⟩

/-- Witness for the amended C6 at the spec's invalid key example. -/
theorem read_key_validation_amended_witness :
    validateKey "invalid key!" = false ∧
    getObjectHandler [⟨"x", "v", 1⟩] "invalid key!" none 50 =
      ⟨400, errBody "Invalid key"⟩ ∧
    memGetHandler [] "invalid key!" (some "10") 50 = ⟨400, errBody "Invalid key"⟩ := by
  refine ⟨by decide, ?_, ?_⟩
  · exact (read_key_validation_amended [⟨"x", "v", 1⟩] [] "invalid key!" none 50 (by decide)).1
  · exact (read_key_validation_amended [] [] "invalid key!" (some "10") 50 (by decide)).2

/-- C7: a write that fails with a storage error leaves the table exactly
as it was — every subsequent latest or point-in-time read observes the
same history — and the mapped error propagates to the caller (storeValue
performs a single atomic INSERT OR REPLACE statement and never retries;
its retry loop exists only for the initial connection). -/
theorem failed_write_preserves_state :
    ∀ (tbl : List Row) (key : String) (v : JsonValue) (t : Nat) (e : SqliteErr),
      storeValueR tbl key v t (some e) = (.error (storeErrorMessage e), tbl) ∧
      (∀ k2 t2, getValueAtTimestamp (storeValueR tbl key v t (some e)).2 k2 t2 =
        getValueAtTimestamp tbl k2 t2) ∧
      (∀ k2, getLatestValue (storeValueR tbl key v t (some e)).2 k2 =
        getLatestValue tbl k2) := by
  intro tbl key v t e
  exact ⟨rfl, fun _ _ => rfl, fun _ => rfl⟩

/-- C8: the composite write-body validation accepts exactly the JSON
objects with one property; it rejects precisely the bodies that are not
JSON objects, are empty objects, or carry more than one property, and an
accepted body yields its sole key-value pair. -/
theorem validateWriteBody_exactly_one :
    ∀ body : JsonValue,
      (writeBodyAccepted body = true ↔ ∃ k v, body = .obj [(k, v)]) ∧
      (writeBodyAccepted body = false ↔
        ((∀ fs, body ≠ .obj fs) ∨ ∃ fs, body = .obj fs ∧ (fs = [] ∨ 1 < fs.length))) ∧
      (∀ k v, validateWriteBody body = .ok k v → body = .obj [(k, v)]) := by
  intro body
  cases body with
  | null =>
      refine ⟨by simp [writeBodyAccepted, validateWriteBody, validateValue], ?_, ?_⟩
      · apply iff_of_true rfl
        left
        intro fs h
        exact JsonValue.noConfusion h
      · intro k v h
        exact BodyCheck.noConfusion h
  | bool b =>
      refine ⟨by simp [writeBodyAccepted, validateWriteBody, validateValue], ?_, ?_⟩
      · apply iff_of_true rfl
        left
        intro fs h
        exact JsonValue.noConfusion h
      · intro k v h
        exact BodyCheck.noConfusion h
  | num n =>
      refine ⟨by simp [writeBodyAccepted, validateWriteBody, validateValue], ?_, ?_⟩
      · apply iff_of_true rfl
        left
        intro fs h
        exact JsonValue.noConfusion h
      · intro k v h
        exact BodyCheck.noConfusion h
  | str s =>
      refine ⟨by simp [writeBodyAccepted, validateWriteBody, validateValue], ?_, ?_⟩
      · apply iff_of_true rfl
        left
        intro fs h
        exact JsonValue.noConfusion h
      · intro k v h
        exact BodyCheck.noConfusion h
  | arr xs =>
      refine ⟨by simp [writeBodyAccepted, validateWriteBody, validateValue], ?_, ?_⟩
      · apply iff_of_true rfl
        left
        intro fs h
        exact JsonValue.noConfusion h
      · intro k v h
        exact BodyCheck.noConfusion h
  | obj fs =>
      cases fs with
      | nil =>
          refine ⟨by simp [writeBodyAccepted, validateWriteBody, validateValue], ?_, ?_⟩
          · apply iff_of_true rfl
            right
            exact ⟨[], rfl, Or.inl rfl⟩
          · intro k v h
            exact BodyCheck.noConfusion h
      | cons x rest =>
          cases rest with
          | nil =>
              obtain ⟨k, v⟩ := x
              refine ⟨iff_of_true rfl ⟨k, v, rfl⟩, ?_, ?_⟩
              · apply iff_of_false
                · intro h
                  exact Bool.noConfusion h
                · rintro (h | ⟨fs2, heq, hbad⟩)
                  · exact h [(k, v)] rfl
                  · injection heq with hfs
                    subst hfs
                    rcases hbad with hbad | hbad
                    · exact List.noConfusion hbad
                    · simp at hbad
              · intro k2 v2 h
                have h2 : validateWriteBody (.obj [(k, v)]) = .ok k v := rfl
                rw [h2] at h
                injection h with e1 e2
                rw [e1, e2]
          | cons y rest2 =>
              refine ⟨?_, ?_, ?_⟩
              · apply iff_of_false
                · intro h
                  exact Bool.noConfusion h
                · rintro ⟨k, v, h⟩
                  injection h with hfs
                  exact List.noConfusion (List.cons.inj hfs).2
              · apply iff_of_true rfl
                right
                refine ⟨x :: y :: rest2, rfl, Or.inr ?_⟩
                simp [List.length_cons]
              · intro k v h
                have h2 : validateWriteBody (.obj (x :: y :: rest2)) = .notExactlyOne := rfl
                rw [h2] at h
                exact BodyCheck.noConfusion h

/-- Witness for C8: a one-property body is accepted, the empty object and
a two-property object are rejected. -/
theorem validateWriteBody_exactly_one_witness :
    writeBodyAccepted (.obj [("a", .num 1)]) = true ∧
    writeBodyAccepted (.obj []) = false ∧
    writeBodyAccepted (.obj [("a", .num 1), ("b", .num 2)]) = false :=
  ⟨(validateWriteBody_exactly_one (.obj [("a", .num 1)])).1.mpr ⟨"a", .num 1, rfl⟩,
   (validateWriteBody_exactly_one (.obj [])).2.1.mpr (Or.inr ⟨[], rfl, Or.inl rfl⟩),
   (validateWriteBody_exactly_one (.obj [("a", .num 1), ("b", .num 2)])).2.1.mpr
     (Or.inr ⟨[("a", .num 1), ("b", .num 2)], rfl, Or.inr (by simp)⟩)⟩

/-- C9: the timestamp-parameter validator accepts exactly the decimal
digit strings whose parsed value is at most now + 86400 seconds,
returning that value; it rejects every other input; it imposes no lower
bound beyond non-negativity — "0" is accepted, and a query at timestamp 0
on a key with no record at or before 0 yields the 404 not-found response
rather than an error. -/
theorem validateTimestamp_characterization :
    ∀ (raw : String) (nowSec : Nat),
      (∀ t, validateTimestamp raw nowSec = some t ↔
        parseIntStr raw = some t ∧ t ≤ nowSec + 86400) ∧
      (validateTimestamp raw nowSec = none ↔
        parseIntStr raw = none ∨ ∃ t, parseIntStr raw = some t ∧ nowSec + 86400 < t) ∧
      ((parseIntStr raw).isSome = true ↔ raw.data ≠ [] ∧ raw.data.all Char.isDigit = true) ∧
      validateTimestamp "0" nowSec = some 0 ∧
      (∀ (key : String) (tbl : List Row), validateKey key = true →
        getValueAtTimestamp tbl key 0 = none →
        getObjectHandler tbl key (some "0") nowSec =
          ⟨404, errBody "No value found for key at the specified timestamp"⟩) := by
  intro raw nowSec
  refine ⟨?_, ?_, ?_, ?_, ?_⟩
  · intro t
    unfold validateTimestamp
    cases hp : parseIntStr raw with
    | none => simp
    | some u =>
        show (if u ≤ nowSec + 86400 then some u else none) = some t ↔
          some u = some t ∧ t ≤ nowSec + 86400
        by_cases hle : u ≤ nowSec + 86400
        · rw [if_pos hle]
          simp only [Option.some.injEq]
          constructor
          · intro h
            exact ⟨h, h ▸ hle⟩
          · intro h
            exact h.1
        · rw [if_neg hle]
          constructor
          · intro h
            exact Option.noConfusion h
          · intro h
            injection h.1 with h1
            exact absurd (h1 ▸ h.2) hle
  · unfold validateTimestamp
    cases hp : parseIntStr raw with
    | none => simp
    | some u =>
        show (if u ≤ nowSec + 86400 then some u else none) = none ↔
          some u = none ∨ ∃ t, some u = some t ∧ nowSec + 86400 < t
        by_cases hle : u ≤ nowSec + 86400
        · rw [if_pos hle]
          constructor
          · intro h
            exact Option.noConfusion h
          · rintro (h | ⟨t, ht, hgt⟩)
            · exact Option.noConfusion h
            · injection ht with ht
              subst ht
              omega
        · rw [if_neg hle]
          constructor
          · intro _
            right
            exact ⟨u, rfl, by omega⟩
          · intro _
            rfl
  · unfold parseIntStr
    by_cases hc : raw.data ≠ [] ∧ raw.data.all Char.isDigit = true
    · simp [hc]
    · simp only [hc, if_false, Option.isSome_none]
      simp [hc]
  · unfold validateTimestamp
    rw [show parseIntStr "0" = some 0 from by decide]
    simp
  · intro key tbl hvk hnone
    have hvt : validateTimestamp "0" nowSec = some 0 := by
      unfold validateTimestamp
      rw [show parseIntStr "0" = some 0 from by decide]
      simp
    simp [getObjectHandler, hvk, hvt, asOfReadResponse, hnone,
      show ("0" : String) ≠ "" from by decide]

/-- Witness for C9: "0" validates to 0 and a query at timestamp 0 before
the key's first record yields the 404 not-found response. -/
theorem validateTimestamp_characterization_witness :
    validateTimestamp "0" 1000 = some 0 ∧
    getObjectHandler [⟨"k", "v", 5⟩] "k" (some "0") 1000 =
      ⟨404, errBody "No value found for key at the specified timestamp"⟩ :=
  ⟨(validateTimestamp_characterization "0" 1000).2.2.2.1,
   (validateTimestamp_characterization "0" 1000).2.2.2.2 "k" [⟨"k", "v", 5⟩]
     (by decide) (by decide)⟩

/-- C10: the SQLite-backed stores persist a string value verbatim and any
other value as its JSON.stringify form; reads JSON-parse the stored text
with fallback to the raw text; `getLatestValue` of the durable-embedded
backend resolves the raw row while `getValueAtTimestamp` parses, so the
number 42, stored once, is observed as the string "42" by the latest read
and as the number 42 by the point-in-time read selecting the very same
record. -/
theorem sqlite_read_representation_divergence :
    (∀ s, serializeValue (.str s) = s) ∧
    (∀ v : JsonValue, (∀ s, v ≠ .str s) → serializeValue v = stringify v) ∧
    (∀ s v, jsonParse s = some v → parseStored s = v) ∧
    (∀ s, jsonParse s = none → parseStored s = .str s) ∧
    (∀ tbl key t r, lookupAsOf tbl key t = some r →
      getValueAtTimestamp tbl key t = some ⟨r.key, parseStored r.value, r.timestamp⟩) ∧
    (getLatestValue (storeValue [] "k" (.num 42) 10) "k" = some ⟨"k", "42", 10⟩ ∧
     serverlessGetLatestValue (storeValue [] "k" (.num 42) 10) "k" =
       some ⟨"k", .num 42, 10⟩ ∧
     getValueAtTimestamp (storeValue [] "k" (.num 42) 10) "k" 10 =
       some ⟨"k", .num 42, 10⟩ ∧
     getObjectHandler (storeValue [] "k" (.num 42) 10) "k" none 50 =
       ⟨200, .obj [("value", .str "42")]⟩ ∧
     getObjectHandler (storeValue [] "k" (.num 42) 10) "k" (some "10") 50 =
       ⟨200, .obj [("value", .num 42)]⟩ ∧
     JsonValue.str "42" ≠ JsonValue.num 42) := by
  refine ⟨?_, ?_, ?_, ?_, ?_, ?_⟩
  · intro s
    rfl
  · intro v hv
    cases v with
    | str s => exact absurd rfl (hv s)
    | null => rfl
    | bool b => rfl
    | num n => rfl
    | arr xs => rfl
    | obj fs => rfl
  · intro s v h
    unfold parseStored
    rw [h]
    rfl
  · intro s h
    unfold parseStored
    rw [h]
    rfl
  · intro tbl key t r h
    unfold getValueAtTimestamp
    rw [h]
    rfl
  · decide

/-- Witness for C10: the serialization and parse-fallback clauses applied
at concrete values. -/
theorem sqlite_read_representation_divergence_witness :
    serializeValue (.num 7) = stringify (.num 7) ∧ parseStored "hello" = .str "hello" :=
  ⟨sqlite_read_representation_divergence.2.1 (.num 7) (fun _ h => nomatch h),
   sqlite_read_representation_divergence.2.2.2.1 "hello" (by decide)⟩
